import Mathlib

/-!
# A verification of the entcache driver

This file gives a shallow embedding, in Lean 4, of the `entcache` package:
a read-through SQL cache decorator (`driver.go`) together with its cache
tiers (in-process LRU, remote Redis adapter, multi-level composition) and
the binary codec used to copy and ship cache entries.

Go machine types are modelled as follows: `time.Time` / `time.Duration`
become `Int` (nanoseconds); `uint64` counters become `Nat` reduced modulo
`2 ^ 64` where they are incremented; byte slices and Go strings become
`List Nat` over byte values; the dynamically typed `driver.Value` becomes
the tagged union `Value` below.  The standard-library `encoding/gob`
codec is modelled by an executable self-describing tag-prefixed encoder
over exactly the scalar alphabet the package stores (integers, floats as
their IEEE-754 bit patterns, booleans, byte strings, registered
timestamps and null), which is the contract `Entry.MarshalBinary` /
`Entry.UnmarshalBinary` rely on.
-/

namespace Entcache


/-- Model of a Go string (an immutable byte sequence), used for column
names, string scalar values and textual Redis keys. -/
abbrev GoStr := List Nat

/-- Model of the dynamically typed Go `driver.Value` scalars stored in a
cache entry: 64-bit integers, floats (carried by their IEEE-754 bit
pattern), booleans, byte slices, strings, timestamps (`time.Time`,
registered with the codec at init) and null. -/
inductive Value where
  | vint (i : Int)
  | vfloat (bits : Nat)
  | vbool (b : Bool)
  | vbytes (bs : List Nat)
  | vstr (s : GoStr)
  | vtime (sec : Int) (nsec : Nat)
  | vnull
deriving DecidableEq, Repr

/-- Model of `entcache.Entry`: the cached artifact of one query, its
ordered column names and the ordered matrix of raw row values. -/
structure Entry where
  columns : List GoStr
  values : List (List Value)
deriving DecidableEq, Repr

/-! ## The entry codec

`Entry.MarshalBinary` / `Entry.UnmarshalBinary` serialise the pair
`(Columns, Values)` with the standard self-describing binary encoder
(`encoding/gob`), with `time.Time` pre-registered at module init.  The
encoder is modelled executably: naturals as base-128 varints, integers
zig-zag folded onto naturals, sequences length-prefixed, scalars
tag-prefixed. -/

/-- Base-128 little-endian varint encoding of a natural number; every
byte but the last carries a continuation bit. -/
def encNat (n : Nat) : List Nat :=
  if h : n < 128 then [n]
  else (n % 128 + 128) :: encNat (n / 128)
decreasing_by exact Nat.div_lt_self (by omega) (by omega)

/-- Decoder for `encNat`; returns the value and the unconsumed tail. -/
def decNat : List Nat → Option (Nat × List Nat)
  | [] => none
  | b :: rest =>
    if b < 128 then some (b, rest)
    else
      match decNat rest with
      | some (m, r2) => some (b - 128 + 128 * m, r2)
      | none => none

/-- Zig-zag encoding of an integer onto a varint: non-negative `i`
becomes `2 * i`, negative `i` becomes `2 * |i| - 1`. -/
def encInt (i : Int) : List Nat :=
  if 0 ≤ i then encNat (2 * i.toNat) else encNat (2 * (-i).toNat - 1)

/-- Decoder for `encInt`. -/
def decInt (bs : List Nat) : Option (Int × List Nat) :=
  match decNat bs with
  | some (m, r) =>
    if m % 2 = 0 then some (((m / 2 : Nat) : Int), r)
    else some (-(((m + 1) / 2 : Nat) : Int), r)
  | none => none

/-- One-byte encoding of a boolean. -/
def encBool (b : Bool) : List Nat :=
  if b then [1] else [0]

/-- Decoder for `encBool`. -/
def decBool : List Nat → Option (Bool × List Nat)
  | [] => none
  | b :: r =>
    if b = 1 then some (true, r)
    else if b = 0 then some (false, r)
    else none

/-- Length-prefixed encoding of a raw byte sequence (also used for Go
strings, which are byte sequences). -/
def encBytes (bs : List Nat) : List Nat :=
  encNat bs.length ++ bs

/-- Decoder for `encBytes`. -/
def decBytes (bs : List Nat) : Option (List Nat × List Nat) :=
  match decNat bs with
  | some (n, r) => if n ≤ r.length then some (r.take n, r.drop n) else none
  | none => none

/-- Concatenated encodings of the elements of a sequence. -/
def encSeq (enc : α → List Nat) : List α → List Nat
  | [] => []
  | x :: xs => enc x ++ encSeq enc xs

/-- Decode exactly `n` elements with `dec`, threading the tail. -/
def decSeqN (dec : List Nat → Option (α × List Nat)) :
    Nat → List Nat → Option (List α × List Nat)
  | 0, bs => some ([], bs)
  | n + 1, bs =>
    match dec bs with
    | some (x, r) =>
      match decSeqN dec n r with
      | some (xs, r2) => some (x :: xs, r2)
      | none => none
    | none => none

/-- Length-prefixed encoding of a sequence of elements. -/
def encListWith (enc : α → List Nat) (xs : List α) : List Nat :=
  encNat xs.length ++ encSeq enc xs

/-- Decoder for `encListWith`. -/
def decListWith (dec : List Nat → Option (α × List Nat)) (bs : List Nat) :
    Option (List α × List Nat) :=
  match decNat bs with
  | some (n, r) => decSeqN dec n r
  | none => none

/-- Tag-prefixed encoding of one dynamic scalar value: the tag records
the dynamic type (the self-describing aspect of the codec) and the
payload the value. -/
def encValue : Value → List Nat
  | .vnull => [0]
  | .vint i => 1 :: encInt i
  | .vfloat bits => 2 :: encNat bits
  | .vbool b => 3 :: encBool b
  | .vbytes bs => 4 :: encBytes bs
  | .vstr s => 5 :: encBytes s
  | .vtime sec nsec => 6 :: (encInt sec ++ encNat nsec)

/-- Decoder for `encValue`, dispatching on the type tag. -/
def decValue : List Nat → Option (Value × List Nat)
  | [] => none
  | t :: r =>
    if t = 0 then some (.vnull, r)
    else if t = 1 then
      match decInt r with
      | some (i, r2) => some (.vint i, r2)
      | none => none
    else if t = 2 then
      match decNat r with
      | some (bits, r2) => some (.vfloat bits, r2)
      | none => none
    else if t = 3 then
      match decBool r with
      | some (b, r2) => some (.vbool b, r2)
      | none => none
    else if t = 4 then
      match decBytes r with
      | some (bs, r2) => some (.vbytes bs, r2)
      | none => none
    else if t = 5 then
      match decBytes r with
      | some (s, r2) => some (.vstr s, r2)
      | none => none
    else if t = 6 then
      match decInt r with
      | some (sec, r2) =>
        match decNat r2 with
        | some (nsec, r3) => some (.vtime sec nsec, r3)
        | none => none
      | none => none
    else none

/-- Model of `Entry.MarshalBinary`: serialise the column names and then
the value matrix (the two fields of the wire struct `{C, V}`). -/
def encodeEntry (e : Entry) : List Nat :=
  encListWith encBytes e.columns ++ encListWith (encListWith encValue) e.values

/-- Model of `Entry.UnmarshalBinary`: decode the column names and then
the value matrix; corrupt input yields `none` (a decoding error). -/
def decodeEntry (bs : List Nat) : Option Entry :=
  match decListWith decBytes bs with
  | some (cols, r) =>
    match decListWith (decListWith decValue) r with
    | some (vals, _) => some ⟨cols, vals⟩
    | none => none
  | none => none

/-! ## Cache errors and keys

`Key` is any comparable Go value; the default hasher produces `uint64`
keys, modelled by `Nat`.  Go errors relevant to the cache are modelled
by the closed alphabet `Err`: the `ErrNotFound` sentinel, an entry
decoding failure, the remote client's "no such key" signal
(`redis.Nil`) and any other failure, carried by an opaque code. -/

abbrev Key := Nat

/-- The errors observable around the cache tiers. -/
inductive Err where
  | notFound
  | decodeFail
  | unexpectedType
  | redisNil
  | io (code : Nat)
deriving DecidableEq, Repr

/-! ## The LRU tier

`LRU` wraps a `groupcache/lru` cache behind a readers/writer mutex.  The
embedded `lru.Cache` is modelled by a most-recent-first association
list plus the configured capacity: `Add` of an existing key moves it to
the front with the new value; `Add` of a fresh key conses it and, when
`maxEntries ≠ 0` and the length now exceeds it, drops the oldest
(last) element; `Get` moves a present key to the front; `Remove`
deletes the key.  The mutex is concurrency-only and has no sequential
content.  Times and durations are `Int` nanoseconds and `time.Now()`
is passed explicitly as `now`. -/

/-- A stored cache slot: either a bare `Entry` (no expiry) or the
expiring wrapper `entry{Entry, expiry}`. -/
inductive Stored where
  | bare (e : Entry)
  | wrapped (e : Entry) (expiry : Int)
deriving DecidableEq, Repr

/-- Model of the `LRU` tier state: the capacity and the underlying
recency-ordered items of the `lru.Cache`. -/
structure LRU where
  maxEntries : Int
  items : List (Key × Stored)
deriving DecidableEq, Repr

/-- Model of `NewLRU`: an empty cache with the given capacity. -/
def NewLRU (maxEntries : Int) : LRU :=
  ⟨maxEntries, []⟩

/-- Model of `lru.Cache.Add`: replace-and-front on an existing key,
otherwise cons and evict the oldest entry past capacity. -/
def lruAdd (c : LRU) (k : Key) (v : Stored) : LRU :=
  if c.items.any (fun p => p.1 == k) then
    { c with items := (k, v) :: c.items.filter (fun p => !(p.1 == k)) }
  else
    let its := (k, v) :: c.items
    if c.maxEntries ≠ 0 ∧ (its.length : Int) > c.maxEntries then
      { c with items := its.dropLast }
    else
      { c with items := its }

/-- Model of `lru.Cache.Get`: look the key up and move it to the
front when present. -/
def lruGet (c : LRU) (k : Key) : Option Stored × LRU :=
  match c.items.find? (fun p => p.1 == k) with
  | some (_, v) =>
    (some v, { c with items := (k, v) :: c.items.filter (fun p => !(p.1 == k)) })
  | none => (none, c)

/-- Model of `lru.Cache.Remove`. -/
def lruRemove (c : LRU) (k : Key) : LRU :=
  { c with items := c.items.filter (fun p => !(p.1 == k)) }

/-- The slot currently held under `k`, ignoring recency. -/
def lruLookup (c : LRU) (k : Key) : Option Stored :=
  (c.items.find? (fun p => p.1 == k)).map Prod.snd

/-- Model of `LRU.Add`: deep-copy the entry through the codec
(marshal then unmarshal), then store it bare when `ttl = 0` and
wrapped with absolute expiry `now + ttl` otherwise. -/
def LRU.Add (now : Int) (c : LRU) (k : Key) (e : Entry) (ttl : Int) :
    Except Err LRU :=
  match decodeEntry (encodeEntry e) with
  | none => .error .decodeFail
  | some ne =>
    if ttl = 0 then .ok (lruAdd c k (.bare ne))
    else .ok (lruAdd c k (.wrapped ne (now + ttl)))

/-- Model of `LRU.Get`: miss is `ErrNotFound`; a bare hit is returned;
a wrapped hit is returned while `now < expiry` and otherwise removed
and reported as `ErrNotFound`. -/
def LRU.Get (now : Int) (c : LRU) (k : Key) : Except Err Entry × LRU :=
  match lruGet c k with
  | (none, c2) => (.error .notFound, c2)
  | (some (.bare e), c2) => (.ok e, c2)
  | (some (.wrapped e expiry), c2) =>
    if now < expiry then (.ok e, c2)
    else (.error .notFound, lruRemove c2 k)

/-- Model of `LRU.Del`: remove the key; always succeeds. -/
def LRU.Del (c : LRU) (k : Key) : Except Err Unit × LRU :=
  (.ok (), lruRemove c k)

/-! ## The multi-level composer

`multiLevel` holds an ordered list of `AddGetDeleter` tiers.  For the
composition claims a tier is abstracted by its responses during the one
composed call: `getR` answers `Get` with a hit, the `ErrNotFound`
sentinel or another error, and `addR` / `delR` answer `Add` / `Del`
with an optional error.  Each compositional operation also reports how
many tiers were consulted (the length of the prefix of the level list
whose method was invoked), which is the observable "visits tiers in
order" behavior of the Go loops. -/

/-- One cache level, abstracted by its responses for the call at hand. -/
structure Tier where
  getR : Key → Except Err Entry
  addR : Key → Entry → Int → Option Err
  delR : Key → Option Err

/-- Model of `multiLevel.Get`: consult the levels in order, return the
first hit, continue past `ErrNotFound`, stop on any other error; report
the number of levels consulted. -/
def multiGet : List Tier → Key → Except Err Entry × Nat
  | [], _ => (.error .notFound, 0)
  | t :: ts, k =>
    match t.getR k with
    | .ok e => (.ok e, 1)
    | .error er =>
      if er = .notFound then
        let r := multiGet ts k
        (r.1, r.2 + 1)
      else (.error er, 1)

/-- Model of `multiLevel.Add`: apply to every level in order, the first
error short-circuiting; report the number of levels visited. -/
def multiAdd : List Tier → Key → Entry → Int → Option Err × Nat
  | [], _, _, _ => (none, 0)
  | t :: ts, k, e, ttl =>
    match t.addR k e ttl with
    | some er => (some er, 1)
    | none =>
      let r := multiAdd ts k e ttl
      (r.1, r.2 + 1)

/-- Model of `multiLevel.Del`: apply to every level in order, the first
error short-circuiting; report the number of levels visited. -/
def multiDel : List Tier → Key → Option Err × Nat
  | [], _ => (none, 0)
  | t :: ts, k =>
    match t.delR k with
    | some er => (some er, 1)
    | none =>
      let r := multiDel ts k
      (r.1, r.2 + 1)

/-- A tier that misses every `Get` and accepts every `Add`/`Del`. -/
def missTier : Tier :=
  ⟨fun _ => .error .notFound, fun _ _ _ => none, fun _ => none⟩

/-- A tier that hits with the empty entry and fails writes with `io 3`. -/
def hitTier : Tier :=
  ⟨fun _ => .ok ⟨[], []⟩, fun _ _ _ => some (.io 3), fun _ => some (.io 3)⟩

/-! ## The Redis (remote) tier

The remote key/value service (`redis.Cmdable`) is abstracted by its
responses: `getR` answers `GET key` with the stored payload or an
error (its "no such key" sentinel `redis.Nil` is `Err.redisNil`),
`setR` answers `SET key value EX ttl` and `delR` answers `DEL key`.
The Go methods first render the cache key textually with `fmt.Sprint`;
the model takes that rendered `GoStr` key directly. -/

/-- The remote service, abstracted by its responses for one call. -/
structure RemoteConn where
  getR : GoStr → Except Err (List Nat)
  setR : GoStr → List Nat → Int → Option Err
  delR : GoStr → Option Err

/-- Model of `Redis.Add`: no-op on an empty textual key, otherwise
serialise the entry and `SET`, propagating any remote error. -/
def Redis.Add (r : RemoteConn) (key : GoStr) (e : Entry) (ttl : Int) :
    Option Err :=
  if key = [] then none
  else
    match r.setR key (encodeEntry e) ttl with
    | some er => some er
    | none => none

/-- Model of `Redis.Get`: miss on an empty textual key; any remote
error or an empty payload is reported as `ErrNotFound`; otherwise the
payload is decoded, a decoding failure propagating as its own error. -/
def Redis.Get (r : RemoteConn) (key : GoStr) : Except Err Entry :=
  if key = [] then .error .notFound
  else
    match r.getR key with
    | .error _ => .error .notFound
    | .ok buf =>
      if buf = [] then .error .notFound
      else
        match decodeEntry buf with
        | some e => .ok e
        | none => .error .decodeFail

/-- Model of `Redis.Del`: no-op on an empty textual key, otherwise
`DEL`, propagating any remote error. -/
def Redis.Del (r : RemoteConn) (key : GoStr) : Option Err :=
  if key = [] then none
  else r.delR key

/-- A remote connection whose `GET` fails with an I/O error that is not
the "no such key" sentinel. -/
def badConn : RemoteConn :=
  ⟨fun _ => .error (.io 7), fun _ _ _ => none, fun _ => none⟩

/-- A remote connection that misses reads and fails writes with `io 9`. -/
def probeConn : RemoteConn :=
  ⟨fun _ => .error .redisNil, fun _ _ _ => some (.io 9), fun _ => some (.io 9)⟩

/-! ## The row recorder

The recorder wraps the live driver row stream on the miss path.  The
underlying `sql.ColumnScanner` is modelled by its remaining rows plus
two flags: whether iteration terminates with an error instead of a
clean end-of-stream, and whether `Close` fails; its mutable state
tracks the rows not yet yielded, the current row, and whether the
iteration error has been reached (`Err()` reports it only then). -/

/-- Static behavior of the underlying row stream for one query. -/
structure UCfg where
  rows : List (List Value)
  failAtEnd : Bool
  closeErr : Bool
  cols : List GoStr

/-- Mutable state of the underlying row stream. -/
structure UState where
  pending : List (List Value)
  cur : Option (List Value)
  erred : Bool
deriving DecidableEq, Repr

/-- The underlying stream before any iteration. -/
def uInit (cfg : UCfg) : UState :=
  ⟨cfg.rows, none, false⟩

/-- Model of the underlying `Next`: yield the next row, or report
end-of-stream — reaching the end with `failAtEnd` set is the moment
the iteration error becomes observable through `Err()`. -/
def uNext (cfg : UCfg) (s : UState) : Bool × UState :=
  match s.pending with
  | r :: rest => (true, ⟨rest, some r, s.erred⟩)
  | [] => (false, ⟨[], none, s.erred || cfg.failAtEnd⟩)

/-- Model of the recorder's own state: the captured raw rows, the
memoised column names, and the `done` flag set by `Next`. -/
structure Recorder where
  values : List (List Value)
  columns : List GoStr
  done : Bool
deriving DecidableEq, Repr

/-- One caller action against the recorder. -/
inductive ROp where
  | next
  | scan
  | columns
deriving DecidableEq, Repr

/-- Model of `recorder.Next` / `recorder.Scan` / `recorder.Columns`:
`Next` forwards and records whether the stream is exhausted, `Scan`
appends the raw copy of the current row on success (an underlying scan
failure surfaces to the caller and appends nothing), `Columns`
forwards and memoises. -/
def recStep (cfg : UCfg) :
    Recorder × UState → ROp → Recorder × UState
  | (rec, u), .next =>
    let n := uNext cfg u
    ({ rec with done := !n.1 }, n.2)
  | (rec, u), .scan =>
    match u.cur with
    | some row => ({ rec with values := rec.values ++ [row] }, u)
    | none => (rec, u)
  | (rec, u), .columns => ({ rec with columns := cfg.cols }, u)

/-- Run a caller's sequence of recorder operations from the start. -/
def recRun (cfg : UCfg) (ops : List ROp) : Recorder × UState :=
  ops.foldl (recStep cfg) (⟨[], [], false⟩, uInit cfg)

/-- Model of `recorder.Close`: fail if the underlying close fails;
otherwise hand the captured `(columns, values)` to `onClose` exactly
when `Err() == nil || done`, and return success.  The second component
is the entry handed to the store via `Add`, `none` when no entry is
handed over. -/
def recClose (cfg : UCfg) (p : Recorder × UState) :
    Except Err Unit × Option (List GoStr × List (List Value)) :=
  if cfg.closeErr then (.error (.io 0), none)
  else if !p.2.erred || p.1.done then (.ok (), some (p.1.columns, p.1.values))
  else (.ok (), none)

/-- A two-row error-free stream used to exhibit the partial-iteration
behavior of `recorder.Close`. -/
def twoRowCfg : UCfg :=
  ⟨[[.vint 1], [.vint 2]], false, false, []⟩

/-! ## The driver decorator

`Driver.Query` is modelled as a function of one call's environment: the
statement text, the shape checks on `v` and `args`, the injected
context options, and the responses of the hasher, the cache tiers and
the underlying driver during this call.  Its output records the
returned result together with the observable effects: whether the call
was forwarded to the underlying driver, which collaborators were
invoked, the stats deltas, and which column scanner was installed. -/

/-- Textual prefix test, modelling `strings.HasPrefix`. -/
def strStartsWith (s pre : String) : Bool :=
  pre.data.isPrefixOf s.data

/-- Model of `ctxOptions`: the ambient per-call cache controls. -/
structure CtxOptions where
  skip : Bool
  evict : Bool
  key : Option Key
  ttl : Int
deriving DecidableEq, Repr

/-- The environment of one `Driver.Query` call: the statement and
argument shape, the injected options, and the responses each
collaborator would give if invoked. -/
structure QueryEnv where
  query : String
  vOk : Bool
  argsOk : Bool
  ctxOpts : Option CtxOptions
  hashRes : Except Unit Key
  delRes : Option Err
  getRes : Except Err Entry
  underRes : Option Err
  addRes : Option Err
  defaultTTL : Int
  logSet : Bool

/-- Outcome of `optionsFromContext`: resolved options, the `errSkip`
signal, or a propagated `Del` error. -/
inductive OptOutcome where
  | ok (opts : CtxOptions)
  | errSkip
  | delErr (er : Err)
deriving DecidableEq, Repr

/-- The tail of `optionsFromContext` after key resolution: inherit the
default TTL when the call-time TTL is zero, delete the key first when
`evict` is set (propagating a `Del` error), then signal `errSkip` when
`skip` is set.  Besides the outcome, the pair of booleans reports
whether the hasher and the store's `Del` were invoked. -/
def optsRest (env : QueryEnv) (opts : CtxOptions) (hasherCalled : Bool) :
    OptOutcome × Bool × Bool :=
  let opts2 := if opts.ttl = 0 then { opts with ttl := env.defaultTTL } else opts
  if opts2.evict then
    match env.delRes with
    | some er => (.delErr er, hasherCalled, true)
    | none =>
      if opts2.skip then (.errSkip, hasherCalled, true)
      else (.ok opts2, hasherCalled, true)
  else
    if opts2.skip then (.errSkip, hasherCalled, false)
    else (.ok opts2, hasherCalled, false)

/-- Model of `Driver.optionsFromContext`: start from the injected
options (or the zero value), derive the key with the hasher when
unset — a hasher error yielding `errSkip` — and continue with
`optsRest`. -/
def optionsFromContext (env : QueryEnv) : OptOutcome × Bool × Bool :=
  let opts0 := env.ctxOpts.getD ⟨false, false, none, 0⟩
  match opts0.key with
  | none =>
    match env.hashRes with
    | .error _ => (.errSkip, true, false)
    | .ok k => optsRest env { opts0 with key := some k } true
  | some _ => optsRest env opts0 false

/-- What `Driver.Query` returns to its caller. -/
inductive QRes where
  | ok
  | typeErrRows
  | typeErrArgs
  | underErr (er : Err)
deriving DecidableEq, Repr

/-- The column scanner installed on `v` by `Driver.Query`, if any: the
repeater replaying a cached entry on a hit, or the recorder whose
`onClose` will `Add` under the resolved key and TTL on a miss. -/
inductive Installed where
  | repeater (cols : List GoStr) (vals : List (List Value))
  | recorder (key : Key) (ttl : Int)
deriving DecidableEq, Repr

/-- The result and observable effects of one `Driver.Query` call. -/
structure QueryOut where
  res : QRes
  forwarded : Bool
  hasherCalled : Bool
  getCalled : Bool
  delCalled : Bool
  getsDelta : Nat
  hitsDelta : Nat
  installed : Option Installed
deriving DecidableEq, Repr

/-- The result the underlying driver's `Query` would give. -/
def underResult (env : QueryEnv) : QRes :=
  match env.underRes with
  | some er => .underErr er
  | none => .ok

/-- Model of `Driver.Query`: forward statements that do not start with
`SELECT`/`select` unconditionally; type-check `v` and `args`; resolve
options, any resolution error falling back to the underlying driver;
then count the lookup and dispatch on the cache `Get` — a hit installs
the repeater, `ErrNotFound` executes the underlying driver and installs
the recorder on success, and any other `Get` error falls back to the
underlying driver. -/
def Driver.Query (env : QueryEnv) : QueryOut :=
  if !(strStartsWith env.query "SELECT" || strStartsWith env.query "select") then
    ⟨underResult env, true, false, false, false, 0, 0, none⟩
  else if !env.vOk then
    ⟨.typeErrRows, false, false, false, false, 0, 0, none⟩
  else if !env.argsOk then
    ⟨.typeErrArgs, false, false, false, false, 0, 0, none⟩
  else
    match optionsFromContext env with
    | (.errSkip, hc, dc) =>
      ⟨underResult env, true, hc, false, dc, 0, 0, none⟩
    | (.delErr _, hc, dc) =>
      ⟨underResult env, true, hc, false, dc, 0, 0, none⟩
    | (.ok opts, hc, dc) =>
      match env.getRes with
      | .ok e =>
        ⟨.ok, false, hc, true, dc, 1, 1, some (.repeater e.columns e.values)⟩
      | .error er =>
        if er = .notFound then
          match env.underRes with
          | some uer => ⟨.underErr uer, true, hc, true, dc, 1, 0, none⟩
          | none =>
            ⟨.ok, true, hc, true, dc, 1, 0,
              some (.recorder (opts.key.getD 0) opts.ttl)⟩
        else
          ⟨underResult env, true, hc, true, dc, 1, 0, none⟩

/-- Model of the `onClose` closure installed on the recorder: when the
store's `Add` fails *and* a log sink is configured, the error is
counted in `errors` and logged; the pair is the `errors` delta and
whether the sink was called. -/
def onCloseAdd (logSet : Bool) (addRes : Option Err) : Nat × Bool :=
  match addRes with
  | some _ => if logSet then (1, true) else (0, false)
  | none => (0, false)

/-- The `errors` counter delta contributed by the call once its
recorder (if any) is closed after full iteration. -/
def queryErrorsDelta (env : QueryEnv) (out : QueryOut) : Nat :=
  match out.installed with
  | some (.recorder _ _) => (onCloseAdd env.logSet env.addRes).1
  | _ => 0

/-- Whether the call logs through the configured sink once its
recorder (if any) is closed after full iteration. -/
def queryLogged (env : QueryEnv) (out : QueryOut) : Bool :=
  match out.installed with
  | some (.recorder _ _) => (onCloseAdd env.logSet env.addRes).2
  | _ => false

/-- Model of the driver's `Stats` counters (`uint64` values). -/
structure Stats where
  gets : Nat
  hits : Nat
  errors : Nat
deriving DecidableEq, Repr

/-- One `atomic.AddUint64` increment by `d`: untouched when `d = 0`,
otherwise added modulo `2 ^ 64`. -/
def bump (x d : Nat) : Nat :=
  if d = 0 then x else (x + d) % 2 ^ 64

/-- The effect of one `Driver.Query` call (with its eventual recorder
close) on the stats counters. -/
def statsStep (s : Stats) (env : QueryEnv) : Stats :=
  let out := Driver.Query env
  ⟨bump s.gets out.getsDelta, bump s.hits out.hitsDelta,
    bump s.errors (queryErrorsDelta env out)⟩

/-- The stats after a trace of driver calls (most recent first),
starting from the zero counters of a fresh driver. -/
def runStats : List QueryEnv → Stats
  | [] => ⟨0, 0, 0⟩
  | env :: tr => statsStep (runStats tr) env

/-! ## The default hasher

`DefaultHash` passes exactly the pair struct `{Q: query, A: args}`,
the fixed `FormatV2` and nil options to `hashstructure.Hash`, a pure
library function of its arguments.  The library is abstracted by the
function parameter `hashFn`; the ambient world (a clock and an entropy
source) is passed to the model only to witness that the Go function
reads no state besides its two inputs. -/

/-- Ambient state a call could in principle observe. -/
structure HashWorld where
  clock : Int
  entropy : Nat

/-- Model of `DefaultHash`: apply the structural hash to the statement
text and arguments, ignoring the ambient world. -/
def DefaultHash (hashFn : String → List Value → Except Unit Key)
    (w : HashWorld) (query : String) (args : List Value) :
    Except Unit Key :=
  hashFn query args

/-- A mutation-shaped statement routed through the query entry point. -/
def insEnv : QueryEnv :=
  ⟨"INSERT INTO users DEFAULT VALUES RETURNING id", true, true, none,
    .ok 1, none, .error .notFound, none, none, 0, false⟩

/-- A `SELECT` call carrying the evict option whose store `Del`
fails. -/
def evictEnv : QueryEnv :=
  ⟨"SELECT name FROM users", true, true, some ⟨false, true, some 5, 0⟩,
    .ok 1, some (.io 4), .error .notFound, none, none, 0, true⟩

/-- A miss-path `SELECT` call with no log sink whose store `Add` will
fail at recorder close. -/
def missEnvNoLog : QueryEnv :=
  ⟨"SELECT name FROM users", true, true, none, .ok 1, none,
    .error .notFound, none, some (.io 5), 0, false⟩

/-- A miss-path `SELECT` call with a log sink whose store `Add` will
fail at recorder close. -/
def missEnvLog : QueryEnv :=
  ⟨"SELECT name FROM users", true, true, none, .ok 1, none,
    .error .notFound, none, some (.io 5), 0, true⟩

/-- A cache-hit `SELECT` call used to exercise the stats counters. -/
def hitEnv : QueryEnv :=
  ⟨"SELECT id FROM users", true, true, none, .ok 1, none,
    .ok ⟨[], []⟩, none, none, 0, false⟩

/-! ## Theorems -/

theorem decNat_encNat (n : Nat) (r : List Nat) :
    decNat (encNat n ++ r) = some (n, r) := by
  induction n using Nat.strong_induction_on generalizing r with
  | _ n ih =>
    rw [encNat]
    by_cases h : n < 128
    · simp [h, decNat]
    · rw [dif_neg h]
      simp only [List.cons_append, decNat]
      rw [if_neg (by omega)]
      simp only [List.append_eq]
      rw [ih (n / 128) (Nat.div_lt_self (by omega) (by omega))]
      show some (n % 128 + 128 - 128 + 128 * (n / 128), r) = some (n, r)
      have : n % 128 + 128 - 128 + 128 * (n / 128) = n := by omega
      rw [this]

theorem decInt_encInt (i : Int) (r : List Nat) :
    decInt (encInt i ++ r) = some (i, r) := by
  rw [encInt]
  by_cases h : 0 ≤ i
  · rw [if_pos h]
    simp only [decInt, decNat_encNat]
    rw [if_pos (by omega)]
    have h1 : 2 * i.toNat / 2 = i.toNat := by omega
    rw [h1, Int.toNat_of_nonneg h]
  · rw [if_neg h]
    simp only [decInt, decNat_encNat]
    have hpos : 1 ≤ (-i).toNat := by omega
    rw [if_neg (by omega)]
    have h2 : (2 * (-i).toNat - 1 + 1) / 2 = (-i).toNat := by omega
    rw [h2]
    have h3 : ((-i).toNat : Int) = -i := Int.toNat_of_nonneg (by omega)
    rw [h3, neg_neg]

theorem decBool_encBool (b : Bool) (r : List Nat) :
    decBool (encBool b ++ r) = some (b, r) := by
  cases b <;> simp [encBool, decBool]

theorem decBytes_encBytes (bs : List Nat) (r : List Nat) :
    decBytes (encBytes bs ++ r) = some (bs, r) := by
  simp only [encBytes, List.append_assoc, decBytes, decNat_encNat]
  rw [if_pos (by simp)]
  rw [List.take_left, List.drop_left]

theorem decSeqN_encSeq {α : Type} {enc : α → List Nat}
    {dec : List Nat → Option (α × List Nat)}
    (hdec : ∀ x r, dec (enc x ++ r) = some (x, r)) :
    ∀ (xs : List α) (r : List Nat),
      decSeqN dec xs.length (encSeq enc xs ++ r) = some (xs, r) := by
  intro xs
  induction xs with
  | nil => intro r; simp [encSeq, decSeqN]
  | cons x xs ih =>
    intro r
    simp only [List.length_cons, encSeq, List.append_assoc, decSeqN, hdec, ih]

theorem decListWith_encListWith {α : Type} {enc : α → List Nat}
    {dec : List Nat → Option (α × List Nat)}
    (hdec : ∀ x r, dec (enc x ++ r) = some (x, r))
    (xs : List α) (r : List Nat) :
    decListWith dec (encListWith enc xs ++ r) = some (xs, r) := by
  simp only [encListWith, List.append_assoc, decListWith, decNat_encNat]
  exact decSeqN_encSeq hdec xs r

theorem decValue_encValue (v : Value) (r : List Nat) :
    decValue (encValue v ++ r) = some (v, r) := by
  cases v with
  | vnull => simp [encValue, decValue]
  | vint i => simp [encValue, decValue, decInt_encInt]
  | vfloat bits => simp [encValue, decValue, decNat_encNat]
  | vbool b => simp [encValue, decValue, decBool_encBool]
  | vbytes bs => simp [encValue, decValue, decBytes_encBytes]
  | vstr s => simp [encValue, decValue, decBytes_encBytes]
  | vtime sec nsec =>
    simp [encValue, decValue, decInt_encInt, decNat_encNat]

theorem decodeEntry_encodeEntry (e : Entry) :
    decodeEntry (encodeEntry e) = some e := by
  rw [show encodeEntry e = encodeEntry e ++ [] from (List.append_nil _).symm]
  simp only [encodeEntry, List.append_assoc, decodeEntry,
    decListWith_encListWith decBytes_encBytes]
  rw [decListWith_encListWith
    (decListWith_encListWith decValue_encValue)]

theorem lruLookup_lruRemove (c : LRU) (k : Key) :
    lruLookup (lruRemove c k) k = none := by
  simp only [lruLookup, lruRemove, Option.map_eq_none', List.find?_eq_none]
  intro p hp
  have := List.of_mem_filter hp
  simpa using this

theorem lruLookup_lruAdd (c : LRU) (k : Key) (v : Stored) :
    lruLookup (lruAdd c k v) k = some v ∨ lruLookup (lruAdd c k v) k = none := by
  unfold lruAdd
  by_cases hmem : c.items.any (fun p => p.1 == k)
  · left
    simp [hmem, lruLookup, List.find?]
  · rw [if_neg hmem]
    by_cases hcap : c.maxEntries ≠ 0 ∧ (((k, v) :: c.items).length : Int) > c.maxEntries
    · rw [if_pos hcap]
      cases c.items with
      | nil => right; simp [lruLookup, List.dropLast]
      | cons p ps =>
        left
        simp [lruLookup, List.dropLast, List.find?]
    · rw [if_neg hcap]
      left
      simp [lruLookup, List.find?]

theorem LRU_Add_bare_eq (now : Int) (c : LRU) (k : Key) (e : Entry) :
    LRU.Add now c k e 0 = .ok (lruAdd c k (.bare e)) := by
  unfold LRU.Add
  rw [decodeEntry_encodeEntry]
  simp

theorem LRU_Add_wrapped_eq (now : Int) (c : LRU) (k : Key) (e : Entry)
    (ttl : Int) (h : ttl ≠ 0) :
    LRU.Add now c k e ttl = .ok (lruAdd c k (.wrapped e (now + ttl))) := by
  unfold LRU.Add
  rw [decodeEntry_encodeEntry]
  simp [h]

theorem LRU_Get_miss (now : Int) (c : LRU) (k : Key)
    (h : lruLookup c k = none) :
    (LRU.Get now c k).1 = .error .notFound := by
  unfold LRU.Get lruGet
  cases hf : c.items.find? (fun p => p.1 == k) with
  | none => simp
  | some p => simp [lruLookup, hf] at h

theorem LRU_Get_bare (now : Int) (c : LRU) (k : Key) (e : Entry)
    (h : lruLookup c k = some (.bare e)) :
    (LRU.Get now c k).1 = .ok e := by
  unfold LRU.Get lruGet
  cases hf : c.items.find? (fun p => p.1 == k) with
  | none => simp [lruLookup, hf] at h
  | some p =>
    obtain ⟨a, v⟩ := p
    simp only [lruLookup, hf, Option.map_some'] at h
    cases h
    simp

theorem LRU_Get_wrapped_live (now : Int) (c : LRU) (k : Key) (e : Entry)
    (expiry : Int) (h : lruLookup c k = some (.wrapped e expiry))
    (hlive : now < expiry) :
    (LRU.Get now c k).1 = .ok e := by
  unfold LRU.Get lruGet
  cases hf : c.items.find? (fun p => p.1 == k) with
  | none => simp [lruLookup, hf] at h
  | some p =>
    obtain ⟨a, v⟩ := p
    simp only [lruLookup, hf, Option.map_some'] at h
    cases h
    simp [hlive]

theorem LRU_Get_wrapped_expired (now : Int) (c : LRU) (k : Key) (e : Entry)
    (expiry : Int) (h : lruLookup c k = some (.wrapped e expiry))
    (hexp : ¬ now < expiry) :
    (LRU.Get now c k).1 = .error .notFound ∧
      lruLookup (LRU.Get now c k).2 k = none := by
  unfold LRU.Get lruGet
  cases hf : c.items.find? (fun p => p.1 == k) with
  | none => simp [lruLookup, hf] at h
  | some p =>
    obtain ⟨a, v⟩ := p
    simp only [lruLookup, hf, Option.map_some'] at h
    cases h
    simp only [if_neg hexp]
    exact ⟨trivial, lruLookup_lruRemove _ k⟩

/-- C4: for the LRU tier, `Add` with `ttl = 0` stores the bare entry
(the codec deep copy equals the original), `Add` with `ttl ≠ 0` stores
the expiring wrapper with absolute expiry `now + ttl`, whatever remains
under the key after an `Add` is exactly what was stored (it is served
until evicted or deleted), `Get` on a missing key reports not-found, a
bare hit is returned, a wrapped hit is returned while `now < expiry`
and otherwise removed and reported as not-found, so an entry added with
negative TTL is never served on any subsequent lookup. -/
theorem lru_tier_semantics :
    (∀ now c k e, LRU.Add now c k e 0 = .ok (lruAdd c k (.bare e))) ∧
    (∀ now c k e ttl, ttl ≠ 0 →
      LRU.Add now c k e ttl = .ok (lruAdd c k (.wrapped e (now + ttl)))) ∧
    (∀ c k v, lruLookup (lruAdd c k v) k = some v ∨
      lruLookup (lruAdd c k v) k = none) ∧
    (∀ now c k, lruLookup c k = none →
      (LRU.Get now c k).1 = .error .notFound) ∧
    (∀ now c k e, lruLookup c k = some (.bare e) →
      (LRU.Get now c k).1 = .ok e) ∧
    (∀ now c k e expiry, lruLookup c k = some (.wrapped e expiry) →
      (now < expiry → (LRU.Get now c k).1 = .ok e) ∧
      (¬ now < expiry → (LRU.Get now c k).1 = .error .notFound ∧
        lruLookup (LRU.Get now c k).2 k = none)) ∧
    (∀ t0 t1 c k e ttl c2, ttl < 0 → t0 ≤ t1 →
      LRU.Add t0 c k e ttl = .ok c2 →
      (LRU.Get t1 c2 k).1 = .error .notFound) := by
  refine ⟨LRU_Add_bare_eq, LRU_Add_wrapped_eq, lruLookup_lruAdd,
    LRU_Get_miss, LRU_Get_bare, ?_, ?_⟩
  · intro now c k e expiry h
    exact ⟨LRU_Get_wrapped_live now c k e expiry h,
      LRU_Get_wrapped_expired now c k e expiry h⟩
  · intro t0 t1 c k e ttl c2 hneg hle hadd
    rw [LRU_Add_wrapped_eq t0 c k e ttl (by omega)] at hadd
    cases hadd
    rcases lruLookup_lruAdd c k (.wrapped e (t0 + ttl)) with h | h
    · exact (LRU_Get_wrapped_expired t1 _ k e (t0 + ttl) h (by omega)).1
    · exact LRU_Get_miss t1 _ k h

/-- Witness for `lru_tier_semantics` at concrete inputs: an entry added
to a fresh unbounded LRU with TTL `-1` at time `0` is not served by a
lookup at time `0`, and a zero-TTL add is stored bare. -/
theorem lru_tier_semantics_witness :
    LRU.Add 0 (NewLRU 0) 1 ⟨[], []⟩ 0 =
      .ok (lruAdd (NewLRU 0) 1 (.bare ⟨[], []⟩)) ∧
    (LRU.Get 0 (lruAdd (NewLRU 0) 1 (.wrapped ⟨[], []⟩ (0 + -1))) 1).1 =
      .error .notFound :=
  ⟨lru_tier_semantics.1 0 (NewLRU 0) 1 ⟨[], []⟩,
    lru_tier_semantics.2.2.2.2.2.2 0 0 (NewLRU 0) 1 ⟨[], []⟩ (-1)
      (lruAdd (NewLRU 0) 1 (.wrapped ⟨[], []⟩ (0 + -1)))
      (by decide) (by decide)
      (lru_tier_semantics.2.1 0 (NewLRU 0) 1 ⟨[], []⟩ (-1) (by decide))⟩

theorem multiGet_first_hit (pre : List Tier) (t : Tier) (post : List Tier)
    (k : Key) (e : Entry)
    (hpre : ∀ t2 ∈ pre, t2.getR k = .error .notFound)
    (ht : t.getR k = .ok e) :
    multiGet (pre ++ t :: post) k = (.ok e, pre.length + 1) := by
  induction pre with
  | nil => simp [multiGet, ht]
  | cons p ps ih =>
    have hp := hpre p (by simp)
    have ih2 := ih (fun t2 ht2 => hpre t2 (by simp [ht2]))
    simp [multiGet, hp, ih2, Nat.add_assoc]

theorem multiGet_first_error (pre : List Tier) (t : Tier) (post : List Tier)
    (k : Key) (er : Err)
    (hpre : ∀ t2 ∈ pre, t2.getR k = .error .notFound)
    (ht : t.getR k = .error er) (hner : er ≠ .notFound) :
    multiGet (pre ++ t :: post) k = (.error er, pre.length + 1) := by
  induction pre with
  | nil => simp [multiGet, ht, hner]
  | cons p ps ih =>
    have hp := hpre p (by simp)
    have ih2 := ih (fun t2 ht2 => hpre t2 (by simp [ht2]))
    simp [multiGet, hp, ih2, Nat.add_assoc]

theorem multiGet_all_miss (ts : List Tier) (k : Key)
    (h : ∀ t ∈ ts, t.getR k = .error .notFound) :
    multiGet ts k = (.error .notFound, ts.length) := by
  induction ts with
  | nil => simp [multiGet]
  | cons t ts ih =>
    have hp := h t (by simp)
    simp [multiGet, hp, ih (fun t2 ht2 => h t2 (by simp [ht2]))]

theorem multiAdd_all_ok (ts : List Tier) (k : Key) (e : Entry) (ttl : Int)
    (h : ∀ t ∈ ts, t.addR k e ttl = none) :
    multiAdd ts k e ttl = (none, ts.length) := by
  induction ts with
  | nil => simp [multiAdd]
  | cons t ts ih =>
    have hp := h t (by simp)
    simp [multiAdd, hp, ih (fun t2 ht2 => h t2 (by simp [ht2]))]

theorem multiAdd_first_error (pre : List Tier) (t : Tier) (post : List Tier)
    (k : Key) (e : Entry) (ttl : Int) (er : Err)
    (hpre : ∀ t2 ∈ pre, t2.addR k e ttl = none)
    (ht : t.addR k e ttl = some er) :
    multiAdd (pre ++ t :: post) k e ttl = (some er, pre.length + 1) := by
  induction pre with
  | nil => simp [multiAdd, ht]
  | cons p ps ih =>
    have hp := hpre p (by simp)
    have ih2 := ih (fun t2 ht2 => hpre t2 (by simp [ht2]))
    simp [multiAdd, hp, ih2, Nat.add_assoc]

theorem multiDel_all_ok (ts : List Tier) (k : Key)
    (h : ∀ t ∈ ts, t.delR k = none) :
    multiDel ts k = (none, ts.length) := by
  induction ts with
  | nil => simp [multiDel]
  | cons t ts ih =>
    have hp := h t (by simp)
    simp [multiDel, hp, ih (fun t2 ht2 => h t2 (by simp [ht2]))]

theorem multiDel_first_error (pre : List Tier) (t : Tier) (post : List Tier)
    (k : Key) (er : Err)
    (hpre : ∀ t2 ∈ pre, t2.delR k = none)
    (ht : t.delR k = some er) :
    multiDel (pre ++ t :: post) k = (some er, pre.length + 1) := by
  induction pre with
  | nil => simp [multiDel, ht]
  | cons p ps ih =>
    have hp := hpre p (by simp)
    have ih2 := ih (fun t2 ht2 => hpre t2 (by simp [ht2]))
    simp [multiDel, hp, ih2, Nat.add_assoc]

/-- C5: over any ordered list of tiers, `Get` consults tiers in order
and returns the first tier's hit having consulted exactly the levels up
to it, continues past `ErrNotFound` (all-miss consults every level and
reports not-found), and stops at and propagates any other error; `Add`
and `Del` apply to every tier in order when all succeed, and the first
error short-circuits (later tiers are not visited) and is returned. -/
theorem multi_tier_semantics :
    (∀ pre t post k e, (∀ t2 ∈ pre, t2.getR k = .error .notFound) →
      t.getR k = .ok e →
      multiGet (pre ++ t :: post) k = (.ok e, pre.length + 1)) ∧
    (∀ pre t post k er, (∀ t2 ∈ pre, t2.getR k = .error .notFound) →
      t.getR k = .error er → er ≠ .notFound →
      multiGet (pre ++ t :: post) k = (.error er, pre.length + 1)) ∧
    (∀ ts k, (∀ t ∈ ts, t.getR k = .error .notFound) →
      multiGet ts k = (.error .notFound, ts.length)) ∧
    (∀ ts k e ttl, (∀ t ∈ ts, t.addR k e ttl = none) →
      multiAdd ts k e ttl = (none, ts.length)) ∧
    (∀ pre t post k e ttl er, (∀ t2 ∈ pre, t2.addR k e ttl = none) →
      t.addR k e ttl = some er →
      multiAdd (pre ++ t :: post) k e ttl = (some er, pre.length + 1)) ∧
    (∀ ts k, (∀ t ∈ ts, t.delR k = none) →
      multiDel ts k = (none, ts.length)) ∧
    (∀ pre t post k er, (∀ t2 ∈ pre, t2.delR k = none) →
      t.delR k = some er →
      multiDel (pre ++ t :: post) k = (some er, pre.length + 1)) :=
  ⟨multiGet_first_hit, multiGet_first_error, multiGet_all_miss,
    multiAdd_all_ok, multiAdd_first_error, multiDel_all_ok,
    multiDel_first_error⟩

/-- Witness for `multi_tier_semantics` at concrete inputs: with a
missing first level and a hitting second level, `Get` returns the
second level's entry after consulting both, and a failing `Add` in the
second level short-circuits there. -/
theorem multi_tier_semantics_witness :
    multiGet ([missTier] ++ hitTier :: []) 1 = (.ok ⟨[], []⟩, 1 + 1) ∧
    multiAdd ([missTier] ++ hitTier :: [missTier]) 1 ⟨[], []⟩ 0 =
      (some (.io 3), 1 + 1) :=
  ⟨multi_tier_semantics.1 [missTier] hitTier [] 1 ⟨[], []⟩
      (by intro t2 h2; simp at h2; subst h2; rfl) rfl,
    multi_tier_semantics.2.2.2.2.1 [missTier] hitTier [missTier] 1 ⟨[], []⟩ 0
      (.io 3) (by intro t2 h2; simp at h2; subst h2; rfl) rfl⟩

/-- C3 counterexample: the remote service answers `GET` with an error
(`io 7`) that is not its "no such key" sentinel, yet `Redis.Get`
reports `ErrNotFound` instead of propagating it — `Redis.Get` maps
every remote error to "not found", not only the missing-key signal. -/
theorem redis_get_error_counterexample :
    badConn.getR [49] = .error (.io 7) ∧
    Err.io 7 ≠ Err.redisNil ∧
    Redis.Get badConn [49] = .error .notFound ∧
    Redis.Get badConn [49] ≠ .error (.io 7) :=
  ⟨rfl, by decide, rfl, by
    intro hcon
    rw [show Redis.Get badConn [49] = Except.error Err.notFound from rfl]
      at hcon
    exact absurd (Except.error.inj hcon) (by decide)⟩

theorem redis_add_propagates (r : RemoteConn) (key : GoStr) (e : Entry)
    (ttl : Int) (h : key ≠ []) :
    Redis.Add r key e ttl = r.setR key (encodeEntry e) ttl := by
  unfold Redis.Add
  rw [if_neg h]
  cases r.setR key (encodeEntry e) ttl <;> rfl

theorem redis_del_propagates (r : RemoteConn) (key : GoStr)
    (h : key ≠ []) :
    Redis.Del r key = r.delR key := by
  unfold Redis.Del
  rw [if_neg h]

theorem redis_get_remote_error (r : RemoteConn) (key : GoStr) (er : Err)
    (h : key ≠ []) (hg : r.getR key = .error er) :
    Redis.Get r key = .error .notFound := by
  unfold Redis.Get
  rw [if_neg h, hg]

theorem redis_get_payload (r : RemoteConn) (key : GoStr) (buf : List Nat)
    (h : key ≠ []) (hg : r.getR key = .ok buf) (hbuf : buf ≠ []) :
    Redis.Get r key =
      (match decodeEntry buf with
       | some e => .ok e
       | none => .error .decodeFail) := by
  unfold Redis.Get
  rw [if_neg h, hg]
  simp [hbuf]

/-- C3 amended: for the remote (Redis) tier, errors returned by the
remote service propagate to the caller of `Add` and `Del`; `Get` maps
every remote error — not only the "no such key" signal — as well as an
empty payload to "not found", while a failure to decode a non-empty
payload propagates as its own error; an empty textual key makes `Add`
and `Del` no-ops and `Get` a miss. -/
theorem redis_tier_semantics :
    (∀ r e ttl, Redis.Add r [] e ttl = none) ∧
    (∀ r, Redis.Get r [] = .error .notFound) ∧
    (∀ r, Redis.Del r [] = none) ∧
    (∀ r key e ttl, key ≠ [] →
      Redis.Add r key e ttl = r.setR key (encodeEntry e) ttl) ∧
    (∀ r key, key ≠ [] → Redis.Del r key = r.delR key) ∧
    (∀ r key er, key ≠ [] → r.getR key = .error er →
      Redis.Get r key = .error .notFound) ∧
    (∀ r key, key ≠ [] → r.getR key = .ok [] →
      Redis.Get r key = .error .notFound) ∧
    (∀ r key buf, key ≠ [] → r.getR key = .ok buf → buf ≠ [] →
      Redis.Get r key =
        (match decodeEntry buf with
         | some e => .ok e
         | none => .error .decodeFail)) := by
  refine ⟨fun r e ttl => rfl, fun r => rfl, fun r => rfl,
    redis_add_propagates, redis_del_propagates, redis_get_remote_error,
    ?_, redis_get_payload⟩
  intro r key h hg
  unfold Redis.Get
  rw [if_neg h, hg]
  simp

/-- Witness for `redis_tier_semantics` at concrete inputs: a failing
remote `SET` error propagates out of `Add`, a remote read error
becomes a miss, and an empty textual key makes `Del` a no-op. -/
theorem redis_tier_semantics_witness :
    Redis.Add probeConn [49] ⟨[], []⟩ 0 = some (.io 9) ∧
    Redis.Get probeConn [49] = .error .notFound ∧
    Redis.Del probeConn [] = none :=
  ⟨(redis_tier_semantics.2.2.2.1 probeConn [49] ⟨[], []⟩ 0 (by decide)).trans
      rfl,
    redis_tier_semantics.2.2.2.2.2.1 probeConn [49] .redisNil (by decide) rfl,
    redis_tier_semantics.2.2.1 probeConn⟩

/-- C9: the entry codec round-trips: deserialising the serialised bytes
of any entry built from the supported scalar types (integer, float,
boolean, bytes, string, timestamp, null) yields an entry equal
field-by-field to the original, preserving column order, row order and
each scalar's dynamic type. -/
theorem entry_codec_roundtrip :
    ∀ e : Entry, decodeEntry (encodeEntry e) = some e :=
  decodeEntry_encodeEntry

/-- C1 (failing input): the caller reads one row of a two-row stream
and closes with an unread remainder and no error; `recorder.Close`
nevertheless hands the partial one-row entry to the store, because its
condition is the disjunction `Err() == nil || done` where the code's
own comment ("If we did not encounter any error during iteration, and
we scanned all rows") and the specification require the conjunction. -/
theorem recorder_partial_close_stores :
    (recRun twoRowCfg [ROp.next, ROp.scan]).2.pending = [[Value.vint 2]] ∧
    (recRun twoRowCfg [ROp.next, ROp.scan]).2.erred = false ∧
    (recRun twoRowCfg [ROp.next, ROp.scan]).1.done = false ∧
    recClose twoRowCfg (recRun twoRowCfg [ROp.next, ROp.scan]) =
      (.ok (), some ([], [[Value.vint 1]])) :=
  ⟨rfl, rfl, rfl, rfl⟩

/-- C7: the default hasher is deterministic: any two calls with
identical statement text and identical argument values return equal
keys, whatever ambient state (clock, entropy) differs between the two
calls — the key depends on nothing besides the statement text and the
argument values. -/
theorem default_hash_deterministic :
    ∀ (hashFn : String → List Value → Except Unit Key)
      (w1 w2 : HashWorld) (q1 q2 : String) (a1 a2 : List Value),
      q1 = q2 → a1 = a2 →
      DefaultHash hashFn w1 q1 a1 = DefaultHash hashFn w2 q2 a2 := by
  intro hashFn w1 w2 q1 q2 a1 a2 hq ha
  subst hq
  subst ha
  rfl

/-- Witness for `default_hash_deterministic` at concrete inputs with
two different ambient worlds. -/
theorem default_hash_deterministic_witness :
    DefaultHash (fun _ _ => .ok 7) ⟨0, 0⟩ "SELECT 1" [.vint 3] =
      DefaultHash (fun _ _ => .ok 7) ⟨99, 42⟩ "SELECT 1" [.vint 3] :=
  default_hash_deterministic (fun _ _ => .ok 7) ⟨0, 0⟩ ⟨99, 42⟩
    "SELECT 1" "SELECT 1" [.vint 3] [.vint 3] rfl rfl

/-- C6: a statement whose text starts with neither `SELECT` nor
`select` is forwarded unconditionally to the underlying driver: the
hasher is never invoked, no cache tier method is called, nothing is
installed, and no stats counter changes. -/
theorem nonselect_passthrough (env : QueryEnv)
    (h1 : strStartsWith env.query "SELECT" = false)
    (h2 : strStartsWith env.query "select" = false) :
    Driver.Query env =
      ⟨underResult env, true, false, false, false, 0, 0, none⟩ ∧
    (∀ s, statsStep s env = s) := by
  have hq : Driver.Query env =
      ⟨underResult env, true, false, false, false, 0, 0, none⟩ := by
    unfold Driver.Query
    rw [h1, h2]
    rfl
  refine ⟨hq, ?_⟩
  intro s
  cases s
  simp [statsStep, hq, queryErrorsDelta, bump]

/-- Witness for `nonselect_passthrough` at a concrete `INSERT …
RETURNING` call: the call succeeds through the underlying driver and
the counters stay put. -/
theorem nonselect_passthrough_witness :
    Driver.Query insEnv = ⟨.ok, true, false, false, false, 0, 0, none⟩ ∧
    statsStep ⟨3, 2, 1⟩ insEnv = ⟨3, 2, 1⟩ :=
  ⟨((nonselect_passthrough insEnv (by decide) (by decide)).1).trans rfl,
    (nonselect_passthrough insEnv (by decide) (by decide)).2 ⟨3, 2, 1⟩⟩

theorem options_evict_del_error (env : QueryEnv) (c : CtxOptions)
    (er : Err) (k : Key)
    (hctx : env.ctxOpts = some c) (hev : c.evict = true)
    (hkey : c.key = some k ∨ (c.key = none ∧ env.hashRes = .ok k))
    (hdel : env.delRes = some er) :
    ∃ hc, optionsFromContext env = (.delErr er, hc, true) := by
  unfold optionsFromContext
  rw [hctx]
  rcases hkey with hk | ⟨hk, hh⟩
  · refine ⟨false, ?_⟩
    simp only [Option.getD_some, hk]
    unfold optsRest
    split <;> simp_all
  · refine ⟨true, ?_⟩
    simp only [Option.getD_some, hk, hh]
    unfold optsRest
    split <;> simp_all

/-- C10: when the evict option is set and the store's `Del` fails
during options resolution, `Driver.Query` bypasses the cache and
forwards the call to the underlying driver, returning only the
underlying result: the `Del` error never surfaces, nothing is logged,
no entry is installed, the cache `Get` is not consulted, and none of
the `gets`, `hits`, `errors` counters change. -/
theorem evict_del_error_bypass (env : QueryEnv) (c : CtxOptions)
    (er : Err) (k : Key)
    (hsel : strStartsWith env.query "SELECT" = true ∨
      strStartsWith env.query "select" = true)
    (hv : env.vOk = true) (ha : env.argsOk = true)
    (hctx : env.ctxOpts = some c) (hev : c.evict = true)
    (hkey : c.key = some k ∨ (c.key = none ∧ env.hashRes = .ok k))
    (hdel : env.delRes = some er) :
    (Driver.Query env).res = underResult env ∧
    (Driver.Query env).forwarded = true ∧
    (Driver.Query env).getCalled = false ∧
    (Driver.Query env).delCalled = true ∧
    (Driver.Query env).installed = none ∧
    queryErrorsDelta env (Driver.Query env) = 0 ∧
    queryLogged env (Driver.Query env) = false ∧
    (∀ s, statsStep s env = s) := by
  obtain ⟨hc, hopt⟩ := options_evict_del_error env c er k hctx hev hkey hdel
  have hq : Driver.Query env =
      ⟨underResult env, true, hc, false, true, 0, 0, none⟩ := by
    unfold Driver.Query
    have hsel2 :
        (!(strStartsWith env.query "SELECT" ||
          strStartsWith env.query "select")) = false := by
      rcases hsel with h | h <;> simp [h]
    rw [hsel2, hv, ha, hopt]
    rfl
  refine ⟨by rw [hq], by rw [hq], by rw [hq], by rw [hq], by rw [hq],
    by rw [hq]; rfl, by rw [hq]; rfl, ?_⟩
  intro s
  cases s
  simp [statsStep, hq, queryErrorsDelta, bump]

/-- Witness for `evict_del_error_bypass` at a concrete call. -/
theorem evict_del_error_bypass_witness :
    (Driver.Query evictEnv).res = .ok ∧
    (Driver.Query evictEnv).delCalled = true ∧
    (Driver.Query evictEnv).getCalled = false ∧
    statsStep ⟨3, 2, 1⟩ evictEnv = ⟨3, 2, 1⟩ :=
  ⟨((evict_del_error_bypass evictEnv ⟨false, true, some 5, 0⟩ (.io 4) 5
      (Or.inl (by decide)) rfl rfl rfl rfl (Or.inl rfl) rfl).1).trans rfl,
    (evict_del_error_bypass evictEnv ⟨false, true, some 5, 0⟩ (.io 4) 5
      (Or.inl (by decide)) rfl rfl rfl rfl (Or.inl rfl) rfl).2.2.2.1,
    (evict_del_error_bypass evictEnv ⟨false, true, some 5, 0⟩ (.io 4) 5
      (Or.inl (by decide)) rfl rfl rfl rfl (Or.inl rfl) rfl).2.2.1,
    (evict_del_error_bypass evictEnv ⟨false, true, some 5, 0⟩ (.io 4) 5
      (Or.inl (by decide)) rfl rfl rfl rfl (Or.inl rfl) rfl).2.2.2.2.2.2.2
      ⟨3, 2, 1⟩⟩

/-- C2 counterexample: on the miss path with a failing store `Add` and
*no* log sink configured, the `errors` counter is not incremented (the
code guards the increment behind `d.Log != nil`), contradicting the
claim that the counter is incremented whenever the recorded entry
fails to be stored. -/
theorem add_error_nolog_counterexample :
    missEnvNoLog.addRes = some (.io 5) ∧
    missEnvNoLog.logSet = false ∧
    (Driver.Query missEnvNoLog).installed = some (.recorder 1 0) ∧
    queryErrorsDelta missEnvNoLog (Driver.Query missEnvNoLog) = 0 ∧
    (statsStep ⟨7, 4, 2⟩ missEnvNoLog).errors = 2 :=
  ⟨rfl, rfl, rfl, rfl, rfl⟩

/-- C2 amended: on the miss path, when the recorded entry fails to be
stored at recorder close, the error is logged and counted in `errors`
exactly when a log sink is configured (with no sink it is neither
logged nor counted), and in either case no error surfaces to the
caller: the query returns success and closing the recorder returns
success whenever the underlying close succeeds. -/
theorem add_error_swallowed (env : QueryEnv) (opts : CtxOptions)
    (hc dc : Bool) (er : Err)
    (hsel : strStartsWith env.query "SELECT" = true ∨
      strStartsWith env.query "select" = true)
    (hv : env.vOk = true) (ha : env.argsOk = true)
    (hopts : optionsFromContext env = (.ok opts, hc, dc))
    (hget : env.getRes = .error .notFound)
    (hunder : env.underRes = none)
    (hadd : env.addRes = some er) :
    (Driver.Query env).res = .ok ∧
    (Driver.Query env).installed =
      some (.recorder (opts.key.getD 0) opts.ttl) ∧
    queryErrorsDelta env (Driver.Query env) =
      (if env.logSet then 1 else 0) ∧
    queryLogged env (Driver.Query env) = env.logSet ∧
    (∀ cfg p, cfg.closeErr = false → (recClose cfg p).1 = .ok ()) := by
  have hq : Driver.Query env =
      ⟨.ok, true, hc, true, dc, 1, 0,
        some (.recorder (opts.key.getD 0) opts.ttl)⟩ := by
    unfold Driver.Query
    have hsel2 :
        (!(strStartsWith env.query "SELECT" ||
          strStartsWith env.query "select")) = false := by
      rcases hsel with h | h <;> simp [h]
    rw [hsel2, hv, ha, hopts, hget]
    simp [hunder]
  refine ⟨by rw [hq], by rw [hq], ?_, ?_, ?_⟩
  · rw [hq]
    simp only [queryErrorsDelta, onCloseAdd, hadd]
    cases env.logSet <;> rfl
  · rw [hq]
    simp only [queryLogged, onCloseAdd, hadd]
    cases env.logSet <;> rfl
  · intro cfg p h
    cases hcond : (!p.2.erred || p.1.done) <;> simp [recClose, h, hcond]

/-- Witness for `add_error_swallowed` at a concrete call with a sink:
the error is counted and logged and the query still returns success. -/
theorem add_error_swallowed_witness :
    (Driver.Query missEnvLog).res = .ok ∧
    queryErrorsDelta missEnvLog (Driver.Query missEnvLog) = 1 ∧
    queryLogged missEnvLog (Driver.Query missEnvLog) = true :=
  ⟨(add_error_swallowed missEnvLog ⟨false, false, some 1, 0⟩ true false
      (.io 5) (Or.inl (by decide)) rfl rfl rfl rfl rfl rfl).1,
    ((add_error_swallowed missEnvLog ⟨false, false, some 1, 0⟩ true false
      (.io 5) (Or.inl (by decide)) rfl rfl rfl rfl rfl rfl).2.2.1).trans
      rfl,
    ((add_error_swallowed missEnvLog ⟨false, false, some 1, 0⟩ true false
      (.io 5) (Or.inl (by decide)) rfl rfl rfl rfl rfl rfl).2.2.2.1).trans
      rfl⟩

theorem query_deltas (env : QueryEnv) :
    (Driver.Query env).getsDelta ≤ 1 ∧
    (Driver.Query env).hitsDelta ≤ (Driver.Query env).getsDelta ∧
    queryErrorsDelta env (Driver.Query env) ≤ 1 := by
  unfold queryErrorsDelta onCloseAdd Driver.Query
  repeat' split
  all_goals simp

theorem le_bump (x d : Nat) (h : x + d < 2 ^ 64) : x ≤ bump x d := by
  unfold bump
  split
  · omega
  · rw [Nat.mod_eq_of_lt h]
    omega

theorem bump_le (x d bound : Nat) (hx : x ≤ bound) (hd : d ≤ 1)
    (hb : bound + 1 < 2 ^ 64) : bump x d ≤ bound + 1 := by
  unfold bump
  split
  · omega
  · rw [Nat.mod_eq_of_lt (by omega)]
    omega

theorem bump_le_bump (x y dx dy : Nat) (hxy : x ≤ y) (hd : dx ≤ dy)
    (hy : y + dy < 2 ^ 64) : bump x dx ≤ bump y dy := by
  unfold bump
  by_cases h1 : dx = 0 <;> by_cases h2 : dy = 0
  · rw [if_pos h1, if_pos h2]
    exact hxy
  · rw [if_pos h1, if_neg h2, Nat.mod_eq_of_lt hy]
    omega
  · exact absurd (by omega : dx = 0) h1
  · rw [if_neg h1, if_neg h2, Nat.mod_eq_of_lt hy,
      Nat.mod_eq_of_lt (by omega)]
    omega

theorem runStats_bounds (tr : List QueryEnv) (h : tr.length < 2 ^ 64) :
    (runStats tr).gets ≤ tr.length ∧
    (runStats tr).hits ≤ (runStats tr).gets ∧
    (runStats tr).errors ≤ tr.length := by
  induction tr with
  | nil => simp [runStats]
  | cons env tr ih =>
    have hlen : tr.length + 1 < 2 ^ 64 := by simpa using h
    obtain ⟨hg, hh, he⟩ := ih (by omega)
    obtain ⟨hd1, hd2, hd3⟩ := query_deltas env
    show (statsStep (runStats tr) env).gets ≤ tr.length + 1 ∧ _ ∧
      (statsStep (runStats tr) env).errors ≤ tr.length + 1
    unfold statsStep
    refine ⟨bump_le _ _ _ hg hd1 hlen, ?_, bump_le _ _ _ he hd3 hlen⟩
    exact bump_le_bump _ _ _ _ hh hd2 (by omega)

/-- C8: starting from a fresh driver, along every trace of driver
calls short enough for the `uint64` counters not to wrap (fewer than
`2 ^ 64` operations), the stats satisfy `hits ≤ gets`, and each of
`gets`, `hits` and `errors` is non-decreasing across every further
operation. -/
theorem stats_counters_invariant :
    (∀ tr : List QueryEnv, tr.length < 2 ^ 64 →
      (runStats tr).hits ≤ (runStats tr).gets) ∧
    (∀ (tr : List QueryEnv) (env : QueryEnv),
      (env :: tr).length < 2 ^ 64 →
      (runStats tr).gets ≤ (runStats (env :: tr)).gets ∧
      (runStats tr).hits ≤ (runStats (env :: tr)).hits ∧
      (runStats tr).errors ≤ (runStats (env :: tr)).errors) := by
  constructor
  · intro tr h
    exact (runStats_bounds tr h).2.1
  · intro tr env h
    have hlen : tr.length + 1 < 2 ^ 64 := by simpa using h
    obtain ⟨hg, hh, he⟩ := runStats_bounds tr (by omega)
    obtain ⟨hd1, hd2, hd3⟩ := query_deltas env
    show (runStats tr).gets ≤ (statsStep (runStats tr) env).gets ∧
      (runStats tr).hits ≤ (statsStep (runStats tr) env).hits ∧
      (runStats tr).errors ≤ (statsStep (runStats tr) env).errors
    unfold statsStep
    have hhg : (runStats tr).hits ≤ tr.length := le_trans hh hg
    exact ⟨le_bump _ _ (by omega), le_bump _ _ (by omega),
      le_bump _ _ (by omega)⟩

/-- Witness for `stats_counters_invariant` on a concrete one-call
trace. -/
theorem stats_counters_invariant_witness :
    (runStats [hitEnv]).hits ≤ (runStats [hitEnv]).gets ∧
    (runStats []).gets ≤ (runStats [hitEnv]).gets :=
  ⟨stats_counters_invariant.1 [hitEnv] (by norm_num),
    (stats_counters_invariant.2 [] hitEnv (by norm_num)).1⟩

end Entcache
